import Mathlib


/-!
Verification of the `amexdefault` analysis script
(`src/Development/predict_kai.py`) against its natural-language
specification.

The script is shallowly embedded here:

* machine floats become exact rationals (`ℚ`); NumPy's elementwise float
  division by zero produces NaN, which we model by returning `none` from
  the fallible embedding of `amex_metric`;
* NumPy arrays and pandas columns become `List ℚ`;
* `np.argsort` (default kind) runs insertion sort on short arrays, which
  is stable; we model it as the stable ascending argsort, i.e. indices
  ordered by value with ties broken by original position (Mathlib's
  `List.insertionSort`, which is stable);
* pandas DataFrames become an explicit structure of a column-name list
  plus rows of optional rationals (`none` models a missing value / NaN);
* in-place mutation (`sort_values(..., inplace=True)`, `fillna(..., inplace=True)`)
  is modelled by explicit state passing: `preprocess` returns both the
  final state of its argument and its return value.
-/

namespace AmexDefault

/-- Running prefix sums of a list starting from accumulator `acc`:
`cumsumFrom a [x, y] = [a + x, a + x + y]`.  Embeds NumPy's `cumsum`
(with `cumsum = cumsumFrom 0`). -/
def cumsumFrom (acc : ℚ) : List ℚ → List ℚ
  | [] => []
  | x :: rest => (acc + x) :: cumsumFrom (acc + x) rest

/-- NumPy `ndarray.cumsum`: the list of prefix sums. -/
def cumsum (xs : List ℚ) : List ℚ := cumsumFrom 0 xs

/-- Comparison relation used by the stable ascending argsort of `xs`:
index `i` precedes index `j` when its value is smaller, with ties broken
by original position. -/
def ascRel (xs : List ℚ) (i j : ℕ) : Prop :=
  xs.getD i 0 < xs.getD j 0 ∨ (xs.getD i 0 = xs.getD j 0 ∧ i ≤ j)

instance (xs : List ℚ) : DecidableRel (ascRel xs) := fun i j => by
  unfold ascRel; infer_instance

/-- Embeds `np.argsort(y_pred)`: the indices `0, ..., n-1` sorted by
ascending value.  NumPy's default sort is insertion sort on the array
sizes considered here, hence stable, which `List.insertionSort` models. -/
def argsortAsc (xs : List ℚ) : List ℕ :=
  List.insertionSort (ascRel xs) (List.range xs.length)

/-- Embeds `np.argsort(y_pred)[::-1]` (line 72 of the script): the
ascending argsort, reversed. -/
def argsortDesc (xs : List ℚ) : List ℕ :=
  (argsortAsc xs).reverse

/-- Embedding of `amex_metric` (script lines 62–94) over exact rationals.

The Python code divides NumPy scalars/arrays, whose divisions by zero
produce NaN/inf rather than a number; every such division is guarded
here and yields `none`.  The guards sit exactly where the script first
divides by the corresponding quantity: by `n_pos` at the capture rate
`d` (line 82), by `n_pos + 20 * n_neg` inside `gini_max` (line 89) and
by `gini_max` at `g` (line 92).  The elementwise division by
`weight.sum()` (line 78) needs no guard: it is performed only on the
(possibly empty) array elements, and for a nonempty array the weight
sum is nonzero whenever it is reached with binary labels; rational
division by zero in that spot would produce `0` entries, matching no
claim considered here. -/
def amex_metric (y_true y_pred : List ℚ) : Option ℚ :=
  let n_pos : ℚ := y_true.sum
  let n_neg : ℚ := (y_true.length : ℚ) - n_pos
  let indices := argsortDesc y_pred
  let target := indices.map (fun i => y_true.getD i 0)
  let weight := target.map (fun t => 20 - t * 19)
  let cum_norm_weight := cumsum (weight.map (fun w => w / weight.sum))
  let four_pct := (target.zip cum_norm_weight).filter (fun p => decide (p.2 ≤ 4/100))
  if n_pos = 0 then none else
  let d := (four_pct.map Prod.fst).sum / n_pos
  let lorentz := cumsum (target.map (fun t => t / n_pos))
  let gini := (List.zipWith (fun x w => x * w)
    (List.zipWith (fun a b => a - b) lorentz cum_norm_weight) weight).sum
  if n_pos + 20 * n_neg = 0 then none else
  let gini_max := 10 * n_neg * (1 - 19 / (n_pos + 20 * n_neg))
  if gini_max = 0 then none else
  some (1/2 * (gini / gini_max + d))

/-- Specification-side restatement of the metric following claim C2's words:
after sorting by descending prediction, record `i` gets weight
`20 - truth*19`; the capture rate `d` is the positive mass among the records
whose cumulative normalized weight is at most `0.04`, as a fraction of all
positive mass; the weighted Gini `g` is the weight-weighted sum of
(cumulative positive fraction minus cumulative normalized weight), divided
by `10 * n_neg * (1 - 19/(n_pos + 20*n_neg))`; the result is `0.5 * (g + d)`.
Cumulative quantities are stated as prefix sums over `List.range`,
independently of the script's `cumsum`/boolean-mask formulation. -/
def amexSpecFormula (y_true y_pred : List ℚ) : ℚ :=
  let n := y_pred.length
  let n_pos : ℚ := y_true.sum
  let n_neg : ℚ := (y_true.length : ℚ) - n_pos
  let tgt : ℕ → ℚ := fun i => y_true.getD ((argsortDesc y_pred).getD i 0) 0
  let w : ℕ → ℚ := fun i => 20 - tgt i * 19
  let W : ℕ → ℚ := fun i =>
    ((List.range (i+1)).map w).sum / ((List.range n).map w).sum
  let L : ℕ → ℚ := fun i => ((List.range (i+1)).map tgt).sum / n_pos
  let d : ℚ :=
    (((List.range n).filter (fun i => decide (W i ≤ 4/100))).map tgt).sum / n_pos
  let g : ℚ := ((List.range n).map (fun i => (L i - W i) * w i)).sum
      / (10 * n_neg * (1 - 19 / (n_pos + 20 * n_neg)))
  1/2 * (g + d)

/-- Modelled from the spec's words for claim C3: descending order with
stable tie-breaking by original index, i.e. index `i` precedes `j` when its
value is larger, ties broken by ascending original position. -/
def descStableRel (xs : List ℚ) (i j : ℕ) : Prop :=
  xs.getD j 0 < xs.getD i 0 ∨ (xs.getD i 0 = xs.getD j 0 ∧ i ≤ j)

instance (xs : List ℚ) : DecidableRel (descStableRel xs) := fun i j => by
  unfold descStableRel; infer_instance

/-- Modelled from the spec's words for claim C3: the descending argsort
with stable tie-breaking by original (input) index. -/
def argsortDescStable (xs : List ℚ) : List ℕ :=
  List.insertionSort (descStableRel xs) (List.range xs.length)

/-- Modelled from the spec's words for claim C3: the metric computed
exactly as `amex_metric` but with the descending sort breaking ties by
stable original order (`argsortDescStable`) instead of the script's
reversed ascending argsort. -/
def amexStableTieMetric (y_true y_pred : List ℚ) : Option ℚ :=
  let n_pos : ℚ := y_true.sum
  let n_neg : ℚ := (y_true.length : ℚ) - n_pos
  let indices := argsortDescStable y_pred
  let target := indices.map (fun i => y_true.getD i 0)
  let weight := target.map (fun t => 20 - t * 19)
  let cum_norm_weight := cumsum (weight.map (fun w => w / weight.sum))
  let four_pct := (target.zip cum_norm_weight).filter (fun p => decide (p.2 ≤ 4/100))
  if n_pos = 0 then none else
  let d := (four_pct.map Prod.fst).sum / n_pos
  let lorentz := cumsum (target.map (fun t => t / n_pos))
  let gini := (List.zipWith (fun x w => x * w)
    (List.zipWith (fun a b => a - b) lorentz cum_norm_weight) weight).sum
  if n_pos + 20 * n_neg = 0 then none else
  let gini_max := 10 * n_neg * (1 - 19 / (n_pos + 20 * n_neg))
  if gini_max = 0 then none else
  some (1/2 * (gini / gini_max + d))

instance (xs : List ℚ) : IsTotal ℕ (ascRel xs) := ⟨fun i j => by
  unfold ascRel
  rcases lt_trichotomy (xs.getD i 0) (xs.getD j 0) with h | h | h
  · exact Or.inl (Or.inl h)
  · rcases Nat.le_total i j with hij | hij
    · exact Or.inl (Or.inr ⟨h, hij⟩)
    · exact Or.inr (Or.inr ⟨h.symm, hij⟩)
  · exact Or.inr (Or.inl h)⟩

instance (xs : List ℚ) : IsTrans ℕ (ascRel xs) := ⟨fun i j k hij hjk => by
  unfold ascRel at *
  rcases hij with h1 | ⟨e1, l1⟩ <;> rcases hjk with h2 | ⟨e2, l2⟩
  · exact Or.inl (h1.trans h2)
  · exact Or.inl (by rw [← e2]; exact h1)
  · exact Or.inl (by rw [e1]; exact h2)
  · exact Or.inr ⟨e1.trans e2, l1.trans l2⟩⟩

/-- Embeds `data.groupby("customer_ID")` over a single feature column (a
series of (customer id, value) observations, already sorted chronologically
within each customer by `preprocess`): group keys iterate in ascending
order; each group's values keep their original order.  Customer
identifiers are opaque ordered keys, modelled as naturals. -/
def groupByCustomer (s : List (ℕ × ℚ)) : List (ℕ × List ℚ) :=
  (List.insertionSort (fun a b : ℕ => a ≤ b) (s.map Prod.fst).dedup).map
    (fun c => (c, (s.filter (fun p => decide (p.1 = c))).map Prod.snd))

/-- Embedding of `transpose_data` (script lines 135–150).  Each customer's
value list shorter than 13 is left-padded with zeros
(`[0] * (13 - df_len) + df_val`); a list of exactly 13 is kept; a longer
list is also kept unchanged (the pad is empty).  The final
`pd.DataFrame(data=res_list, columns=["id", "series_0", ..., "series_12"])`
raises when any row does not carry exactly 13 values, which the final
width check models by returning `none`. -/
def transpose_data (s : List (ℕ × ℚ)) : Option (List (ℕ × List ℚ)) :=
  let res_list := (groupByCustomer s).map (fun g =>
    (g.1, if g.2.length ≠ 13 then List.replicate (13 - g.2.length) 0 ++ g.2
      else g.2))
  if res_list.all (fun r => decide (r.2.length = 13)) then some res_list
  else none

/-- The per-column parameters a fitted `StandardScaler` records: `mean_`
and `scale_`. -/
structure ScalerParams where
  mean : List ℚ
  scale : List ℚ

/-- Exact rational square root on perfect rational squares:
`ratSqrt ((p/q)^2) = p/q` for natural `p, q` with the fraction in lowest
terms.  The embedding only ever evaluates it on such inputs, where it
agrees with the real square root used by floating-point `sqrt`. -/
def ratSqrt (q : ℚ) : ℚ := (Nat.sqrt q.num.toNat : ℚ) / (Nat.sqrt q.den : ℚ)

/-- Mean of column `j` of a matrix (a list of rows). -/
def colMean (X : List (List ℚ)) (j : ℕ) : ℚ :=
  (X.map (fun r => r.getD j 0)).sum / (X.length : ℚ)

/-- Population variance (`ddof = 0`, as `StandardScaler` uses) of column
`j`. -/
def colVar (X : List (List ℚ)) (j : ℕ) : ℚ :=
  (X.map (fun r => (r.getD j 0 - colMean X j)^2)).sum / (X.length : ℚ)

/-- `StandardScaler.fit`: record each column's mean and scale; a zero
variance yields scale `1` (sklearn's `_handle_zeros_in_scale`). -/
def scalerFit (X : List (List ℚ)) : ScalerParams :=
  { mean := (List.range (X.headD []).length).map (colMean X),
    scale := (List.range (X.headD []).length).map (fun j =>
      if colVar X j = 0 then 1 else ratSqrt (colVar X j)) }

/-- `StandardScaler.transform`: subtract the recorded mean and divide by
the recorded scale, columnwise. -/
def scalerTransform (p : ScalerParams) (X : List (List ℚ)) : List (List ℚ) :=
  X.map (fun r => (List.range p.mean.length).map (fun j =>
    (r.getD j 0 - p.mean.getD j 0) / p.scale.getD j 1))

/-- The part of a fitted one-component `PCA` that `transform` reads: the
recorded centering vector `mean_` and the principal axis
`components_[0]`.  `create_model` (script lines 153–160) produces the
axis by an eigen-decomposition of the standardized training matrix and
returns only the `PCA` object — the fitted `StandardScaler` is a local
variable and is discarded.  The claims quantify over the recorded model,
so the axis enters here as an arbitrary recorded vector. -/
structure PCAModel where
  mean : List ℚ
  axis : List ℚ

/-- Dot product of two equally long lists. -/
def dotL (u v : List ℚ) : ℚ := (List.zipWith (fun a b => a * b) u v).sum

/-- `PCA.transform` with one component: center each row with the recorded
mean and project on the axis, one scalar per row. -/
def pcaTransform (m : PCAModel) (X : List (List ℚ)) : List ℚ :=
  X.map (fun r => dotL (List.zipWith (fun a b => a - b) r m.mean) m.axis)

/-- The compressor's transform step as the script codes it (lines
183–189): `model_dict[col].transform(ss.fit_transform(...))` with
`ss = StandardScaler()` freshly created in the loop — the scaler is refit
on the transform-time matrix before projecting with the fitted axis. -/
def compressTransformCode (m : PCAModel) (X : List (List ℚ)) : List ℚ :=
  pcaTransform m (scalerTransform (scalerFit X) X)

/-- Modelled from the spec's words for claim C1: "standardize with the
fitted scale and project using the fitted axis" — the scaler parameters
are the ones recorded at fit time, passed in explicitly, not refit on the
transform input. -/
def compressTransformSpec (m : PCAModel) (fitParams : ScalerParams)
    (X : List (List ℚ)) : List ℚ :=
  pcaTransform m (scalerTransform fitParams X)

/-- Concrete fitted model for the C1 counterexample: zero centering and
first-coordinate axis, as a one-component fit on `XfitEx` standardized
would record (the standardized fit matrix has exactly zero column means,
and all its variance lies in the first coordinate). -/
def pcaEx : PCAModel :=
  { mean := [0, 0, 0, 0, 0, 0, 0, 0, 0, 0, 0, 0, 0],
    axis := [1, 0, 0, 0, 0, 0, 0, 0, 0, 0, 0, 0, 0] }

/-- Fit-time customers × 13 matrix for the C1 counterexample: first
column holds 0 and 2 (mean 1, scale 1), the other columns are constant. -/
def XfitEx : List (List ℚ) :=
  [[0, 0, 0, 0, 0, 0, 0, 0, 0, 0, 0, 0, 0],
   [2, 0, 0, 0, 0, 0, 0, 0, 0, 0, 0, 0, 0]]

/-- Transform-time customers × 13 matrix for the C1 counterexample: first
column holds 4 and 6 (mean 5, scale 1). -/
def XtransEx : List (List ℚ) :=
  [[4, 0, 0, 0, 0, 0, 0, 0, 0, 0, 0, 0, 0],
   [6, 0, 0, 0, 0, 0, 0, 0, 0, 0, 0, 0, 0]]

/-- Shallow model of a pandas `DataFrame`: column names plus rows of
optional rationals (`none` models a missing value / NaN). -/
structure DataFrame where
  columns : List String
  rows : List (List (Option ℚ))

/-- Cell of row `r` under the column named `c` for a frame whose column
list is `cols` (`none` when the column is absent or the cell missing). -/
def cellVal (cols : List String) (r : List (Option ℚ)) (c : String) :
    Option ℚ :=
  match cols.findIdx? (fun c2 => decide (c2 = c)) with
  | some i => r.getD i none
  | none => none

/-- Strict comparison on optional values: missing values (NaN) sort last,
as `sort_values` with its default `na_position="last"` places them. -/
def ovLtB : Option ℚ → Option ℚ → Bool
  | some a, some b => decide (a < b)
  | some _, none => true
  | none, _ => false

/-- Lexicographic "row `r1` not after row `r2`" over the listed key
columns. -/
def rowLeBy (cols : List String) (keys : List String)
    (r1 r2 : List (Option ℚ)) : Bool :=
  match keys with
  | [] => true
  | k :: rest =>
    if ovLtB (cellVal cols r1 k) (cellVal cols r2 k) then true
    else if ovLtB (cellVal cols r2 k) (cellVal cols r1 k) then false
    else rowLeBy cols rest r1 r2

/-- `data.sort_values([...], inplace=True)` (script line 112): sort the
rows by the key columns (modelled as a stable sort; the claims considered
here do not depend on the order among fully tied rows). -/
def sortValues (df : DataFrame) (keys : List String) : DataFrame :=
  { df with rows := (List.insertionSort
      (fun r1 r2 => rowLeBy df.columns keys r1 r2 = true) df.rows) }

/-- `data.fillna(0, inplace=True)` (script line 113): replace every
missing value by `0`. -/
def fillna0 (df : DataFrame) : DataFrame :=
  { df with rows := df.rows.map (fun r => r.map (fun v => some (v.getD 0))) }

/-- `data.drop(labels, axis=1)` (script line 116): pandas raises
`KeyError` (modelled `none`) unless every label is a column; otherwise the
labelled columns are removed. -/
def dropColumns (df : DataFrame) (labels : List String) : Option DataFrame :=
  if labels.all (fun l => decide (l ∈ df.columns)) then
    some { columns := df.columns.filter (fun c => !decide (c ∈ labels)),
           rows := df.rows.map (fun r =>
             ((df.columns.zip r).filter
               (fun p => !decide (p.1 ∈ labels))).map Prod.snd) }
  else none

/-- `Config.remove_param` (script lines 51–56). -/
def remove_param : List String :=
  ["S_2", "D_73", "D_87", "D_88", "D_108", "D_110", "D_111", "B_39", "B_42"]

/-- `Config.category_param` (script lines 44–50). -/
def category_param : List String :=
  ["D_63", "D_64", "B_30", "B_38", "D_114", "D_116", "D_117", "D_120",
   "D_126", "D_66", "D_68"]

/-- The column name pandas `get_dummies` derives for value `v` of
category column `c`. -/
def dummyName (c : String) (v : ℚ) : String := c ++ "_" ++ toString v

/-- Distinct values in ascending order, as `get_dummies` enumerates the
categories of a column. -/
def distinctSorted (vs : List ℚ) : List ℚ :=
  List.insertionSort (fun a b : ℚ => a ≤ b) vs.dedup

/-- `pd.get_dummies(data, columns=cats)` (script line 118): raises
(`none`) if a requested column is absent; otherwise each category column
is removed and one 0/1 indicator column per distinct non-missing value is
appended, grouped by category column in frame order. -/
def getDummies (df : DataFrame) (cats : List String) : Option DataFrame :=
  if cats.all (fun c => decide (c ∈ df.columns)) then
    let dummyPairs := (df.columns.filter (fun c => decide (c ∈ cats))).flatMap
      (fun c => (distinctSorted (df.rows.filterMap
        (fun r => cellVal df.columns r c))).map (fun v => (c, v)))
    some { columns := df.columns.filter (fun c => !decide (c ∈ cats))
             ++ dummyPairs.map (fun p => dummyName p.1 p.2),
           rows := df.rows.map (fun r =>
             ((df.columns.zip r).filter
               (fun p => !decide (p.1 ∈ cats))).map Prod.snd
             ++ dummyPairs.map (fun p =>
                some (if cellVal df.columns r p.1 = some p.2
                  then (1:ℚ) else 0))) }
  else none

/-- A frame after `.set_index("customer_ID", drop=True)` (script line
122): the id column becomes the index and leaves the column list. -/
structure IndexedDF where
  index : List (Option ℚ)
  columns : List String
  rows : List (List (Option ℚ))

/-- `.set_index("customer_ID", drop=True)`: raises (`none`) when the
column is absent. -/
def setIndexCustomer (df : DataFrame) : Option IndexedDF :=
  if "customer_ID" ∈ df.columns then
    some { index := df.rows.map (fun r => cellVal df.columns r "customer_ID"),
           columns := df.columns.filter (fun c => !decide (c = "customer_ID")),
           rows := df.rows.map (fun r =>
             ((df.columns.zip r).filter
               (fun p => !decide (p.1 = "customer_ID"))).map Prod.snd) }
  else none

/-- Embedding of `preprocess` (script lines 110–123) with the in-place
mutation made explicit: `sort_values(..., inplace=True)` and
`fillna(0, inplace=True)` mutate the caller's frame, after which the
local name is rebound to new frames by `drop`, `get_dummies` and
`set_index`.  The result is the pair (final state of the argument, return
value); pandas `KeyError`s surface as `none`. -/
def preprocess (data : DataFrame) : DataFrame × Option IndexedDF :=
  let d1 := fillna0 (sortValues data ["customer_ID", "S_2"])
  let step := if (remove_param.filter (fun c => decide (c ∈ d1.columns))) ≠ []
    then dropColumns d1 remove_param
    else some d1
  (d1, step.bind (fun d2 => (getDummies d2 category_param).bind setIndexCustomer))

/-- Sum of a list all of whose entries are `1` is its length. -/
lemma sum_eq_length_of_all_one {l : List ℚ} (h : ∀ x ∈ l, x = 1) :
    l.sum = l.length := by
  induction l with
  | nil => simp
  | cons a t ih =>
    have ha : a = 1 := h a (List.mem_cons_self a t)
    have := ih (fun x hx => h x (List.mem_cons_of_mem a hx))
    simp [ha, this]
    ring

/-- Sum of a list of `0`s and `1`s is at most its length. -/
lemma sum_le_length_of_binary {l : List ℚ} (hb : ∀ x ∈ l, x = 0 ∨ x = 1) :
    l.sum ≤ l.length := by
  induction l with
  | nil => simp
  | cons a t ih =>
    have ha := hb a (List.mem_cons_self a t)
    have ht := ih (fun x hx => hb x (List.mem_cons_of_mem a hx))
    rcases ha with h | h <;> simp [h] <;> linarith

/-- Sum of a list of `0`s and `1`s is nonnegative. -/
lemma sum_nonneg_of_binary {l : List ℚ} (hb : ∀ x ∈ l, x = 0 ∨ x = 1) :
    0 ≤ l.sum := by
  induction l with
  | nil => simp
  | cons a t ih =>
    have ha := hb a (List.mem_cons_self a t)
    have ht := ih (fun x hx => hb x (List.mem_cons_of_mem a hx))
    rcases ha with h | h <;> simp [h] <;> linarith

/-- A list of `0`s and `1`s containing a `1` has sum at least `1`. -/
lemma sum_ge_one_of_mem_one {l : List ℚ} (hb : ∀ x ∈ l, x = 0 ∨ x = 1)
    (h1 : (1 : ℚ) ∈ l) : 1 ≤ l.sum := by
  induction l with
  | nil => simp at h1
  | cons a t ih =>
    have ht := sum_nonneg_of_binary (fun x hx => hb x (List.mem_cons_of_mem a hx))
    rcases List.mem_cons.mp h1 with h | h
    · simp [← h]; linarith
    · have := ih (fun x hx => hb x (List.mem_cons_of_mem a hx)) h
      have ha := hb a (List.mem_cons_self a t)
      rcases ha with h' | h' <;> simp [h'] <;> linarith

/-- A list of `0`s and `1`s containing a `0` has sum at most `length - 1`. -/
lemma sum_le_length_sub_one_of_mem_zero {l : List ℚ}
    (hb : ∀ x ∈ l, x = 0 ∨ x = 1) (h0 : (0 : ℚ) ∈ l) :
    l.sum ≤ (l.length : ℚ) - 1 := by
  induction l with
  | nil => simp at h0
  | cons a t ih =>
    have ht := sum_le_length_of_binary (fun x hx => hb x (List.mem_cons_of_mem a hx))
    rcases List.mem_cons.mp h0 with h | h
    · simp [← h]; linarith
    · have := ih (fun x hx => hb x (List.mem_cons_of_mem a hx)) h
      have ha := hb a (List.mem_cons_self a t)
      rcases ha with h' | h' <;> simp [h'] <;> linarith

/-- Mapping over a list is mapping its index function over `range`. -/
lemma map_eq_range_map {α β : Type} (l : List α) (f : α → β) (d : α) :
    l.map f = (List.range l.length).map (fun i => f (l.getD i d)) := by
  induction l with
  | nil => simp
  | cons x t ih =>
    rw [List.length_cons, List.range_succ_eq_map, List.map_cons, List.map_cons,
      List.map_map, ih]
    exact congrArg₂ List.cons rfl (List.map_congr_left (fun i _ => by simp))

/-- Prefix sums commute with elementwise division by a constant. -/
lemma cumsumFrom_map_div (c : ℚ) : ∀ (a : ℚ) (xs : List ℚ),
    cumsumFrom (a / c) (xs.map (fun x => x / c)) =
      (cumsumFrom a xs).map (fun x => x / c)
  | _, [] => rfl
  | a, x :: t => by
    simp only [List.map_cons, cumsumFrom]
    rw [div_add_div_same]
    exact congrArg _ (cumsumFrom_map_div c (a + x) t)

/-- NumPy `cumsum` commutes with elementwise division by a constant. -/
lemma cumsum_map_div (xs : List ℚ) (c : ℚ) :
    cumsum (xs.map (fun x => x / c)) = (cumsum xs).map (fun x => x / c) := by
  have h := cumsumFrom_map_div c 0 xs
  rw [zero_div] at h
  exact h

/-- Prefix sums from `a` are `a` plus the sums of the prefixes. -/
lemma cumsumFrom_eq_range_map : ∀ (a : ℚ) (xs : List ℚ),
    cumsumFrom a xs =
      (List.range xs.length).map (fun i => a + (xs.take (i+1)).sum)
  | _, [] => rfl
  | a, x :: t => by
    rw [cumsumFrom, cumsumFrom_eq_range_map (a + x) t, List.length_cons,
      List.range_succ_eq_map, List.map_cons, List.map_map]
    congr 1
    · simp
    · apply List.map_congr_left
      intro i _
      simp only [Function.comp_apply, List.take_succ_cons, List.sum_cons]
      ring

/-- NumPy `cumsum` lists the sums of the nonempty prefixes. -/
lemma cumsum_eq_range_map (xs : List ℚ) :
    cumsum xs = (List.range xs.length).map (fun i => (xs.take (i+1)).sum) := by
  have h := cumsumFrom_eq_range_map 0 xs
  simp only [zero_add] at h
  exact h

/-- Combined form used to rewrite the script's Lorenz-curve and
cumulative-weight computations: the cumulative sums of a normalized
range-indexed list are the normalized prefix sums. -/
lemma cumsum_map_range_div (n : ℕ) (w : ℕ → ℚ) (c : ℚ) :
    cumsum (((List.range n).map w).map (fun x => x / c)) =
      (List.range n).map (fun i => ((List.range (i+1)).map w).sum / c) := by
  rw [cumsum_map_div, cumsum_eq_range_map, List.length_map, List.length_range,
    List.map_map]
  apply List.map_congr_left
  intro i hi
  have hi' : i + 1 ≤ n := Nat.succ_le_of_lt (List.mem_range.mp hi)
  simp only [Function.comp_apply]
  rw [← List.map_take, List.take_range, Nat.min_eq_left hi']

/-- C6: for every input pair of equal length with `n_pos == 0` (the sum of
`y_true` is zero, i.e. no positives), `amex_metric` divides by zero and does
not return a valid score (modelled as `none`). -/
theorem amex_metric_undefined_of_no_positives (y_true y_pred : List ℚ)
    (hlen : y_true.length = y_pred.length) (hpos : y_true.sum = 0) :
    amex_metric y_true y_pred = none := by
  unfold amex_metric
  simp [hpos]

/-- Witness for C6 at the concrete input `y_true = [0, 0]`, `y_pred = [1, 2]`. -/
theorem amex_metric_undefined_of_no_positives_witness :
    amex_metric [0, 0] [1, 2] = none :=
  amex_metric_undefined_of_no_positives [0, 0] [1, 2] rfl (by norm_num)

/-- C8: for every nonempty input pair of equal length with no negatives
(every entry of `y_true` equals `1`, hence `n_neg == 0`), the normalization
denominator `gini_max = 10 * n_neg * (1 - 19/(n_pos + 20*n_neg))` is zero,
so the normalized Gini divides by zero and `amex_metric` does not return a
valid score (modelled as `none`). -/
theorem amex_metric_undefined_of_no_negatives (y_true y_pred : List ℚ)
    (hlen : y_true.length = y_pred.length) (hne : y_true ≠ [])
    (hall : ∀ x ∈ y_true, x = 1) :
    amex_metric y_true y_pred = none := by
  have hsum : y_true.sum = (y_true.length : ℚ) := sum_eq_length_of_all_one hall
  have hlen0 : (y_true.length : ℚ) ≠ 0 := by
    have : y_true.length ≠ 0 := by simpa using hne
    exact_mod_cast Nat.cast_ne_zero.mpr this
  unfold amex_metric
  rw [hsum]
  simp [sub_self, hlen0]

/-- Witness for C8 at the concrete input `y_true = [1, 1]`, `y_pred = [1, 2]`. -/
theorem amex_metric_undefined_of_no_negatives_witness :
    amex_metric [1, 1] [1, 2] = none :=
  amex_metric_undefined_of_no_negatives [1, 1] [1, 2] rfl (by simp) (by norm_num)

/-- C2: on every pair of equal-length arrays with binary truth values and at
least one positive and one negative, `amex_metric` returns exactly the value
described by the specification formula: weight `20 - truth*19` per record
after the descending sort, capture rate `d` over the cumulative-weight top
4 %, weighted Gini normalized by `10 * n_neg * (1 - 19/(n_pos + 20*n_neg))`,
and result `0.5 * (g + d)`. -/
theorem amex_metric_eq_claim_formula (y_true y_pred : List ℚ)
    (hlen : y_true.length = y_pred.length)
    (hbin : ∀ x ∈ y_true, x = 0 ∨ x = 1)
    (hone : (1 : ℚ) ∈ y_true) (hzero : (0 : ℚ) ∈ y_true) :
    amex_metric y_true y_pred = some (amexSpecFormula y_true y_pred) := by
  have h1 : (1 : ℚ) ≤ y_true.sum := sum_ge_one_of_mem_one hbin hone
  have h2 : y_true.sum ≤ (y_true.length : ℚ) - 1 :=
    sum_le_length_sub_one_of_mem_zero hbin hzero
  have hpos_ne : ¬ (y_true.sum = 0) := by intro h; rw [h] at h1; norm_num at h1
  have hSpos : (0:ℚ) < y_true.sum + 20 * ((y_true.length : ℚ) - y_true.sum) := by
    linarith
  have hS_ne : ¬ (y_true.sum + 20 * ((y_true.length : ℚ) - y_true.sum) = 0) :=
    ne_of_gt hSpos
  have hfrac : 19 / (y_true.sum + 20 * ((y_true.length : ℚ) - y_true.sum)) < 1 := by
    rw [div_lt_one hSpos]; linarith
  have hgm : (0:ℚ) < 10 * ((y_true.length : ℚ) - y_true.sum) *
      (1 - 19 / (y_true.sum + 20 * ((y_true.length : ℚ) - y_true.sum))) := by
    apply mul_pos
    · linarith
    · linarith
  have hgm_ne : ¬ (10 * ((y_true.length : ℚ) - y_true.sum) *
      (1 - 19 / (y_true.sum + 20 * ((y_true.length : ℚ) - y_true.sum))) = 0) :=
    ne_of_gt hgm
  have hordlen : (argsortDesc y_pred).length = y_pred.length := by
    simp [argsortDesc, argsortAsc, List.length_insertionSort]
  have htarget : (argsortDesc y_pred).map (fun i => y_true.getD i 0)
      = (List.range y_pred.length).map
          (fun i => y_true.getD ((argsortDesc y_pred).getD i 0) 0) := by
    rw [map_eq_range_map (argsortDesc y_pred) (fun i => y_true.getD i 0) 0,
      hordlen]
  have hweight :
      ((List.range y_pred.length).map
          (fun i => y_true.getD ((argsortDesc y_pred).getD i 0) 0)).map
            (fun t => 20 - t * 19)
      = (List.range y_pred.length).map
          (fun i => 20 - y_true.getD ((argsortDesc y_pred).getD i 0) 0 * 19) := by
    rw [List.map_map]
    rfl
  simp only [amex_metric, amexSpecFormula]
  rw [if_neg hpos_ne, if_neg hS_ne, if_neg hgm_ne, htarget, hweight,
    cumsum_map_range_div, cumsum_map_range_div, List.zip_map',
    List.filter_map, List.map_map, List.zipWith_map, List.zipWith_same,
    List.zipWith_map, List.zipWith_same]
  simp [Function.comp_def]

/-- Witness for C2 at the concrete input `y_true = [1, 0]`, `y_pred = [2, 1]`. -/
theorem amex_metric_eq_claim_formula_witness :
    amex_metric [1, 0] [2, 1] = some (amexSpecFormula [1, 0] [2, 1]) :=
  amex_metric_eq_claim_formula [1, 0] [2, 1] rfl (by norm_num) (by norm_num)
    (by norm_num)

/-- Inserting with two relations that agree on the elements involved gives
the same list. -/
lemma orderedInsert_congr {α : Type} {r s : α → α → Prop}
    [DecidableRel r] [DecidableRel s] (a : α) (l : List α)
    (h : ∀ x ∈ a :: l, ∀ y ∈ a :: l, (r x y ↔ s x y)) :
    l.orderedInsert r a = l.orderedInsert s a := by
  induction l with
  | nil => rfl
  | cons b t ih =>
    have hab : r a b ↔ s a b :=
      h a (List.mem_cons_self a (b :: t)) b
        (List.mem_cons_of_mem a (List.mem_cons_self b t))
    by_cases hr : r a b
    · rw [List.orderedInsert, List.orderedInsert, if_pos hr, if_pos (hab.mp hr)]
    · rw [List.orderedInsert, List.orderedInsert, if_neg hr,
        if_neg (fun hs => hr (hab.mpr hs))]
      have ht : ∀ x ∈ a :: t, ∀ y ∈ a :: t, (r x y ↔ s x y) := by
        intro x hx y hy
        have hx2 : x ∈ a :: b :: t := by
          rcases List.mem_cons.mp hx with hx' | hx' <;> simp [hx']
        have hy2 : y ∈ a :: b :: t := by
          rcases List.mem_cons.mp hy with hy' | hy' <;> simp [hy']
        exact h x hx2 y hy2
      exact congrArg _ (ih ht)

/-- Insertion sort with two relations that agree on the list's elements
gives the same list. -/
lemma insertionSort_congr {α : Type} {r s : α → α → Prop}
    [DecidableRel r] [DecidableRel s] (l : List α)
    (h : ∀ x ∈ l, ∀ y ∈ l, (r x y ↔ s x y)) :
    List.insertionSort r l = List.insertionSort s l := by
  induction l with
  | nil => rfl
  | cons a t ih =>
    rw [List.insertionSort, List.insertionSort,
      ih (fun x hx y hy =>
        h x (List.mem_cons_of_mem a hx) y (List.mem_cons_of_mem a hy))]
    apply orderedInsert_congr
    intro x hx y hy
    have hmem : ∀ z, z ∈ a :: List.insertionSort s t → z ∈ a :: t := by
      intro z hz
      rcases List.mem_cons.mp hz with hz' | hz'
      · simp [hz']
      · exact List.mem_cons_of_mem a ((List.perm_insertionSort s t).mem_iff.mp hz')
    exact h x (hmem x hx) y (hmem y hy)

/-- `getD` with in-range index commutes with `map`. -/
lemma getD_map_lt (l : List ℚ) (f : ℚ → ℚ) {i : ℕ} (hi : i < l.length) :
    (l.map f).getD i 0 = f (l.getD i 0) := by
  rw [List.getD_eq_getElem?_getD, List.getD_eq_getElem?_getD, List.getElem?_map,
    List.getElem?_eq_getElem hi]
  simp

/-- A strictly monotone rescaling of the values leaves the stable ascending
argsort unchanged. -/
lemma argsortAsc_map_strictMono (xs : List ℚ) (f : ℚ → ℚ) (hf : StrictMono f) :
    argsortAsc (xs.map f) = argsortAsc xs := by
  unfold argsortAsc
  rw [List.length_map]
  apply insertionSort_congr
  intro i hi j hj
  have hi' : i < xs.length := List.mem_range.mp hi
  have hj' : j < xs.length := List.mem_range.mp hj
  unfold ascRel
  rw [getD_map_lt xs f hi', getD_map_lt xs f hj', hf.lt_iff_lt,
    hf.injective.eq_iff]

/-- C4: for every input pair with both classes present and every strictly
monotone (order-preserving) rescaling `f` of the predicted scores,
`amex_metric y_true (y_pred.map f)` equals `amex_metric y_true y_pred`:
only the relative order of predictions affects the result. -/
theorem amex_metric_invariant_monotone_rescale (y_true y_pred : List ℚ)
    (f : ℚ → ℚ) (hf : StrictMono f)
    (hlen : y_true.length = y_pred.length)
    (hbin : ∀ x ∈ y_true, x = 0 ∨ x = 1)
    (hone : (1 : ℚ) ∈ y_true) (hzero : (0 : ℚ) ∈ y_true) :
    amex_metric y_true (y_pred.map f) = amex_metric y_true y_pred := by
  have h : argsortDesc (y_pred.map f) = argsortDesc y_pred := by
    unfold argsortDesc
    rw [argsortAsc_map_strictMono y_pred f hf]
  simp only [amex_metric, h]

/-- Witness for C4 with the rescaling `x ↦ 2 * x + 1` on `y_true = [1, 0]`,
`y_pred = [2, 1]`. -/
theorem amex_metric_invariant_monotone_rescale_witness :
    amex_metric [1, 0] ([2, 1].map (fun x => 2 * x + 1)) =
      amex_metric [1, 0] [2, 1] :=
  amex_metric_invariant_monotone_rescale [1, 0] [2, 1] (fun x => 2 * x + 1)
    (fun a b hab => by dsimp only; linarith) rfl (by norm_num) (by norm_num)
    (by norm_num)

/-- Counterexample to C3 at `y_true = [1, 0]`, `y_pred = [1, 1]`: the
script's descending sort puts the tied records in reversed original order
(`[1, 0]`, not the claimed stable original order `[0, 1]`), and the
returned metric value `-10` differs from the value `1/2` computed with
stable tie-breaking by original index. -/
theorem amex_metric_stable_tie_counterexample :
    argsortDesc [1, 1] = [1, 0] ∧ argsortDescStable [1, 1] = [0, 1] ∧
    amex_metric [1, 0] [1, 1] = some (-10) ∧
    amexStableTieMetric [1, 0] [1, 1] = some (1/2) := by
  refine ⟨?_, ?_, ?_, ?_⟩
  · norm_num [argsortDesc, argsortAsc, ascRel, List.range_succ]
  · norm_num [argsortDescStable, descStableRel, List.range_succ]
  · norm_num [amex_metric, argsortDesc, argsortAsc, ascRel, cumsum, cumsumFrom,
      List.range_succ]
  · norm_num [amexStableTieMetric, argsortDescStable, descStableRel, cumsum,
      cumsumFrom, List.range_succ]

/-- C3 amended: the order `amex_metric` processes records in is the
reversal of the stable ascending argsort, so it is a permutation of the
indices in which records with equal predicted score appear in *reversed*
original order (tie `a` before tie `b` exactly when `b ≤ a`); the metric is
therefore computed with tie-breaking by descending original index, which
the counterexample shows can change the returned value relative to stable
(ascending) tie-breaking. -/
theorem argsortDesc_reversed_tie_order (xs : List ℚ) :
    (argsortDesc xs).Perm (List.range xs.length) ∧
    (argsortDesc xs).Pairwise
      (fun a b => xs.getD b 0 < xs.getD a 0 ∨
        (xs.getD a 0 = xs.getD b 0 ∧ b ≤ a)) := by
  constructor
  · exact (List.reverse_perm _).trans
      (List.perm_insertionSort (ascRel xs) (List.range xs.length))
  · have hs : (List.insertionSort (ascRel xs) (List.range xs.length)).Pairwise
        (ascRel xs) :=
      List.sorted_insertionSort (ascRel xs) (List.range xs.length)
    unfold argsortDesc argsortAsc
    rw [List.pairwise_reverse]
    refine hs.imp ?_
    intro a b hab
    rcases hab with h | ⟨e, le⟩
    · exact Or.inl h
    · exact Or.inr ⟨e.symm, le⟩

/-- C5: whenever every customer contributes at most 13 observations,
`transpose_data` succeeds and returns one row per customer holding exactly
the customer's values left-padded at the front with zeros, a row of
exactly 13 entries. -/
theorem transpose_data_pads_to_thirteen (s : List (ℕ × ℚ))
    (h : ∀ g ∈ groupByCustomer s, g.2.length ≤ 13) :
    transpose_data s = some ((groupByCustomer s).map
      (fun g => (g.1, List.replicate (13 - g.2.length) 0 ++ g.2))) ∧
    ∀ r ∈ (groupByCustomer s).map
      (fun g => (g.1, List.replicate (13 - g.2.length) 0 ++ g.2)),
      r.2.length = 13 := by
  have hall : ∀ r ∈ (groupByCustomer s).map
      (fun g => (g.1, List.replicate (13 - g.2.length) 0 ++ g.2)),
      r.2.length = 13 := by
    intro r hr
    rcases List.mem_map.mp hr with ⟨g, hg, rfl⟩
    simp only [List.length_append, List.length_replicate]
    exact Nat.sub_add_cancel (h g hg)
  have hres : (groupByCustomer s).map (fun g =>
        (g.1, if g.2.length ≠ 13 then List.replicate (13 - g.2.length) 0 ++ g.2
          else g.2))
      = (groupByCustomer s).map
        (fun g => (g.1, List.replicate (13 - g.2.length) 0 ++ g.2)) := by
    apply List.map_congr_left
    intro g _
    by_cases hl : g.2.length = 13
    · simp [hl]
    · simp [hl]
  refine ⟨?_, hall⟩
  unfold transpose_data
  rw [hres, if_pos]
  rw [List.all_eq_true]
  intro r hr
  rw [decide_eq_true_eq]
  exact hall r hr

/-- Witness for C5: two customers, one with 2 observations, one with 1,
are padded to 13-step rows. -/
theorem transpose_data_pads_to_thirteen_witness :
    transpose_data [(0, 1), (0, 2), (1, 5)] = some
      ((groupByCustomer [(0, 1), (0, 2), (1, 5)]).map
        (fun g => (g.1, List.replicate (13 - g.2.length) 0 ++ g.2))) ∧
    ∀ r ∈ (groupByCustomer [(0, 1), (0, 2), (1, 5)]).map
      (fun g => (g.1, List.replicate (13 - g.2.length) 0 ++ g.2)),
      r.2.length = 13 :=
  transpose_data_pads_to_thirteen [(0, 1), (0, 2), (1, 5)]
    (by decide)

/-- C9: on an input whose single customer contributes 14 observations, the
padding step of `transpose_data` neither truncates nor pads (the pad
`[0] * (13 - 14)` is empty, so the mapped rows equal the raw groups), the
customer's row keeps more than 13 entries, and constructing the fixed
13-column result frame fails: `transpose_data` returns `none`. -/
theorem transpose_data_overlong_fails :
    (groupByCustomer ((List.range 14).map (fun k => (0, (k : ℚ))))).map
        (fun g => (g.1, if g.2.length ≠ 13 then
          List.replicate (13 - g.2.length) 0 ++ g.2 else g.2))
      = groupByCustomer ((List.range 14).map (fun k => (0, (k : ℚ)))) ∧
    (∀ g ∈ groupByCustomer ((List.range 14).map (fun k => (0, (k : ℚ)))),
      13 < g.2.length) ∧
    transpose_data ((List.range 14).map (fun k => (0, (k : ℚ)))) = none := by
  refine ⟨rfl, by decide, rfl⟩

/-- Counterexample to C1: on the transform input `XtransEx` the script's
transform step standardizes with a scaler refit on `XtransEx` itself and
produces `[-1, 1]`, while standardizing with the scaler fitted on
`XfitEx`, as the spec describes, produces `[3, 5]`. -/
theorem compressTransform_refit_counterexample :
    compressTransformCode pcaEx XtransEx = [-1, 1] ∧
    compressTransformSpec pcaEx (scalerFit XfitEx) XtransEx = [3, 5] ∧
    compressTransformCode pcaEx XtransEx ≠
      compressTransformSpec pcaEx (scalerFit XfitEx) XtransEx := by
  have h1 : compressTransformCode pcaEx XtransEx = [-1, 1] := by
    norm_num [compressTransformCode, pcaTransform, scalerTransform, scalerFit,
      colVar, colMean, ratSqrt, dotL, pcaEx, XtransEx, List.range_succ,
      Rat.num_ofNat, Rat.den_ofNat, Nat.sqrt_one]
  have h2 : compressTransformSpec pcaEx (scalerFit XfitEx) XtransEx = [3, 5] := by
    norm_num [compressTransformSpec, pcaTransform, scalerTransform, scalerFit,
      colVar, colMean, ratSqrt, dotL, pcaEx, XtransEx, XfitEx, List.range_succ,
      Rat.num_ofNat, Rat.den_ofNat, Nat.sqrt_one]
  refine ⟨h1, h2, ?_⟩
  rw [h1, h2]
  intro h
  norm_num at h

/-- C1 amended: the transform step standardizes with a fresh
`StandardScaler` refit on the transform-time input (first conjunct: the
coded step is the spec-described projection taken with the transform
input's own scaler parameters); it therefore coincides with
standardization by the fit-time scaler exactly in the case the script
exercises, where the transformed matrix is the matrix the compressor was
fitted on (second conjunct). -/
theorem compressTransform_refits_on_transform_input (m : PCAModel)
    (Xfit X : List (List ℚ)) :
    compressTransformCode m X = compressTransformSpec m (scalerFit X) X ∧
    (X = Xfit →
      compressTransformCode m X =
        compressTransformSpec m (scalerFit Xfit) X) := by
  refine ⟨rfl, fun h => ?_⟩
  rw [h]
  rfl

/-- Witness for the amended C1 at the script's own usage pattern: the
transform input is the fit matrix. -/
theorem compressTransform_refits_on_transform_input_witness :
    compressTransformCode pcaEx XfitEx =
      compressTransformSpec pcaEx (scalerFit XfitEx) XfitEx :=
  (compressTransform_refits_on_transform_input pcaEx XfitEx XfitEx).2 rfl

/-- C10: `preprocess` mutates its argument in place: for every input
frame, after the call the caller's frame has become the input sorted by
`(customer_ID, S_2)` with all missing values replaced by zero (first
conjunct); on a concrete unsorted frame with a missing value this differs
from the original input (second and third conjuncts), so the input is not
left unchanged even though the returned frame is a different object. -/
theorem preprocess_mutates_argument (df : DataFrame) :
    (preprocess df).1 = fillna0 (sortValues df ["customer_ID", "S_2"]) ∧
    (preprocess (DataFrame.mk ["customer_ID", "S_2"]
        [[some 2, none], [some 1, some 0]])).1 =
      DataFrame.mk ["customer_ID", "S_2"]
        [[some 1, some 0], [some 2, some 0]] ∧
    (preprocess (DataFrame.mk ["customer_ID", "S_2"]
        [[some 2, none], [some 1, some 0]])).1 ≠
      DataFrame.mk ["customer_ID", "S_2"]
        [[some 2, none], [some 1, some 0]] := by
  have hmut : (preprocess (DataFrame.mk ["customer_ID", "S_2"]
        [[some 2, none], [some 1, some 0]])).1 =
      DataFrame.mk ["customer_ID", "S_2"]
        [[some 1, some 0], [some 2, some 0]] := by
    norm_num [preprocess, fillna0, sortValues, rowLeBy, ovLtB, cellVal,
      List.insertionSort, List.orderedInsert]
  refine ⟨rfl, hmut, ?_⟩
  rw [hmut]
  intro h
  have hrows := congrArg DataFrame.rows h
  norm_num at hrows

/-- When every label is a column, `drop` succeeds and removes exactly the
labelled columns. -/
lemma dropColumns_of_subset {df : DataFrame} {labels : List String}
    (h : ∀ l ∈ labels, l ∈ df.columns) :
    dropColumns df labels = some
      { columns := df.columns.filter (fun c => !decide (c ∈ labels)),
        rows := df.rows.map (fun r =>
          ((df.columns.zip r).filter
            (fun p => !decide (p.1 ∈ labels))).map Prod.snd) } := by
  have hall : (labels.all (fun l => decide (l ∈ df.columns))) = true :=
    List.all_eq_true.mpr (fun l hl => decide_eq_true (h l hl))
  unfold dropColumns
  rw [if_pos hall]

/-- When every requested category column is present, `get_dummies`
succeeds; every result column is either a surviving non-category column or
a dummy column named after a category column, and every non-category
column survives. -/
lemma getDummies_of_subset {df : DataFrame} {cats : List String}
    (h : ∀ c ∈ cats, c ∈ df.columns) :
    ∃ e, getDummies df cats = some e ∧
      (∀ c, c ∈ e.columns →
        (c ∈ df.columns ∧ c ∉ cats) ∨ ∃ c2 ∈ cats, ∃ v : ℚ, c = dummyName c2 v) ∧
      (∀ c ∈ df.columns, c ∉ cats → c ∈ e.columns) := by
  have hall : (cats.all (fun c => decide (c ∈ df.columns))) = true :=
    List.all_eq_true.mpr (fun c hc => decide_eq_true (h c hc))
  unfold getDummies
  rw [if_pos hall]
  refine ⟨_, rfl, ?_, ?_⟩
  · intro c hc
    rcases List.mem_append.mp hc with hkeep | hdum
    · rcases List.mem_filter.mp hkeep with ⟨hmem, hdec⟩
      exact Or.inl ⟨hmem, by simpa using hdec⟩
    · rcases List.mem_map.mp hdum with ⟨p, hp, rfl⟩
      rcases List.mem_flatMap.mp hp with ⟨c2, hc2, hpin⟩
      rcases List.mem_map.mp hpin with ⟨v, _, rfl⟩
      exact Or.inr ⟨c2, of_decide_eq_true (List.mem_filter.mp hc2).2, v, rfl⟩
  · intro c hc hnc
    exact List.mem_append.mpr (Or.inl
      (List.mem_filter.mpr ⟨hc, by simpa using hnc⟩))

/-- When the id column is present, `set_index` succeeds and the result's
columns are exactly the other columns. -/
lemma setIndexCustomer_of_mem {df : DataFrame}
    (h : "customer_ID" ∈ df.columns) :
    ∃ r, setIndexCustomer df = some r ∧
      ∀ c, c ∈ r.columns ↔ (c ∈ df.columns ∧ c ≠ "customer_ID") := by
  unfold setIndexCustomer
  rw [if_pos h]
  refine ⟨_, rfl, fun c => ?_⟩
  constructor
  · intro hc
    rcases List.mem_filter.mp hc with ⟨hmem, hdec⟩
    exact ⟨hmem, by simpa using hdec⟩
  · rintro ⟨hmem, hne⟩
    exact List.mem_filter.mpr ⟨hmem, by simpa using hne⟩

/-- The category columns and the denylist are disjoint. -/
lemma category_not_remove : ∀ c ∈ category_param, c ∉ remove_param := by
  decide

/-- The id column is not on the denylist. -/
lemma customer_id_not_remove : ("customer_ID" : String) ∉ remove_param := by
  decide

/-- The id column is not a category column. -/
lemma customer_id_not_category :
    ("customer_ID" : String) ∉ category_param := by decide

/-- `S_2` is on the denylist. -/
lemma s2_mem_remove : ("S_2" : String) ∈ remove_param := by decide

/-- No denylist column starts with a category-column name followed by an
underscore. -/
lemma remove_not_dummy_shaped : ∀ c ∈ remove_param, ∀ cat ∈ category_param,
    ¬ ((cat.data ++ ['_']) <+: c.data) := by decide

/-- Dummy columns produced for category columns can never collide with a
denylist column name. -/
lemma dummyName_ne_remove : ∀ c ∈ remove_param, ∀ cat ∈ category_param,
    ∀ v : ℚ, dummyName cat v ≠ c := by
  intro c hc cat hcat v heq
  apply remove_not_dummy_shaped c hc cat hcat
  refine ⟨(toString v).data, ?_⟩
  have hund : ("_" : String).data = ['_'] := rfl
  have hdata : (dummyName cat v).data =
      (cat.data ++ ['_']) ++ (toString v).data := by
    show ((cat ++ "_") ++ toString v).data = _
    rw [String.data_append, String.data_append, hund]
  rw [← heq, hdata]

/-- C7 amended: when every denylist column is present (together with the
category columns and the id column the rest of `preprocess` requires),
`preprocess` succeeds, the result carries no denylist column, and every
other non-category, non-id input column is intact in the result.  The
claim's further case, a proper subset of the denylist being present, is
refuted by the counterexample: pandas `drop` raises `KeyError` there. -/
theorem preprocess_drops_denylist_when_all_present (df : DataFrame)
    (hrem : ∀ c ∈ remove_param, c ∈ df.columns)
    (hcat : ∀ c ∈ category_param, c ∈ df.columns)
    (hcid : "customer_ID" ∈ df.columns) :
    ∃ r, (preprocess df).2 = some r ∧
      (∀ c ∈ remove_param, c ∉ r.columns) ∧
      (∀ c ∈ df.columns, c ∉ remove_param → c ∉ category_param →
        c ≠ "customer_ID" → c ∈ r.columns) := by
  set d1 : DataFrame := fillna0 (sortValues df ["customer_ID", "S_2"]) with hd1
  have hcols1 : d1.columns = df.columns := by rw [hd1]; rfl
  have hsub : ∀ l ∈ remove_param, l ∈ d1.columns := by
    intro l hl
    rw [hcols1]
    exact hrem l hl
  have hguard : (remove_param.filter (fun c => decide (c ∈ d1.columns))) ≠ [] := by
    apply List.ne_nil_of_mem (a := "S_2")
    exact List.mem_filter.mpr ⟨s2_mem_remove, decide_eq_true (hsub _ s2_mem_remove)⟩
  set d2 : DataFrame :=
    { columns := d1.columns.filter (fun c => !decide (c ∈ remove_param)),
      rows := d1.rows.map (fun r =>
        ((d1.columns.zip r).filter
          (fun p => !decide (p.1 ∈ remove_param))).map Prod.snd) } with hd2
  have hdrop : dropColumns d1 remove_param = some d2 := by
    rw [hd2]
    exact dropColumns_of_subset hsub
  have hd2cols : d2.columns
      = d1.columns.filter (fun c => !decide (c ∈ remove_param)) := by
    rw [hd2]
  have hcats2 : ∀ c ∈ category_param, c ∈ d2.columns := by
    intro c hc
    rw [hd2cols]
    exact List.mem_filter.mpr ⟨by rw [hcols1]; exact hcat c hc,
      by simpa using category_not_remove c hc⟩
  obtain ⟨e, hg, he_mem, he_keep⟩ := getDummies_of_subset hcats2
  have hcid2 : "customer_ID" ∈ d2.columns := by
    rw [hd2cols]
    exact List.mem_filter.mpr ⟨by rw [hcols1]; exact hcid,
      by simpa using customer_id_not_remove⟩
  have hcid_e : "customer_ID" ∈ e.columns :=
    he_keep _ hcid2 customer_id_not_category
  obtain ⟨r, hs, hr⟩ := setIndexCustomer_of_mem hcid_e
  refine ⟨r, ?_, ?_, ?_⟩
  · show (preprocess df).2 = some r
    simp only [preprocess]
    rw [← hd1, if_pos hguard, hdrop]
    simp only [Option.some_bind]
    rw [hg]
    simp only [Option.some_bind]
    exact hs
  · intro c hc hmem
    rcases (hr c).mp hmem with ⟨hce, _⟩
    rcases he_mem c hce with ⟨hcd2, _⟩ | ⟨c2, hc2, v, hceq⟩
    · rw [hd2cols] at hcd2
      rcases List.mem_filter.mp hcd2 with ⟨_, hdec⟩
      exact (by simpa using hdec : c ∉ remove_param) hc
    · exact dummyName_ne_remove c hc c2 hc2 v hceq.symm
  · intro c hcdf hnr hncat hncid
    apply (hr c).mpr
    refine ⟨he_keep c ?_ hncat, hncid⟩
    rw [hd2cols]
    exact List.mem_filter.mpr ⟨by rw [hcols1]; exact hcdf, by simpa using hnr⟩

/-- Witness for the amended C7 on a frame carrying the id column, an extra
column `x`, the full denylist and all category columns. -/
theorem preprocess_drops_denylist_when_all_present_witness :
    ∃ r, (preprocess (DataFrame.mk
        (["customer_ID", "x"] ++ remove_param ++ category_param) [])).2
      = some r ∧
      (∀ c ∈ remove_param, c ∉ r.columns) ∧
      (∀ c ∈ (DataFrame.mk
          (["customer_ID", "x"] ++ remove_param ++ category_param)
          ([] : List (List (Option ℚ)))).columns,
        c ∉ remove_param → c ∉ category_param →
        c ≠ "customer_ID" → c ∈ r.columns) :=
  preprocess_drops_denylist_when_all_present _ (by decide) (by decide)
    (by decide)

/-- Counterexample to C7: on a frame containing the denylist column `S_2`
but not the rest of the denylist, `preprocess` does not succeed — the
guard sees a nonempty intersection and `data.drop(CFG.remove_param, axis=1)`
raises `KeyError` for the absent labels (modelled as `none`). -/
theorem preprocess_partial_denylist_counterexample :
    "S_2" ∈ (DataFrame.mk ["customer_ID", "S_2", "x"] []).columns ∧
    "S_2" ∈ remove_param ∧
    (preprocess (DataFrame.mk ["customer_ID", "S_2", "x"] [])).2 = none := by
  refine ⟨by decide, by decide, ?_⟩
  rfl

end AmexDefault
